import Mathlib

/-!
Shallow embedding of the Prisoner's Dilemma simulation engine
(seeded random source, payoff matrix, strategies, match engine,
round-robin tournament orchestrator), together with theorems that
settle the specification claims about it.

JavaScript numbers are modelled as rationals; 32-bit bitwise
operations of the random generator are modelled on natural numbers
with explicit reduction modulo 2^32, which matches the JS ToUint32
semantics of the bitwise operators.  State mutation is modelled by
explicit state passing: a strategy method returns the updated
strategy, and every consumer of the shared random source returns the
advanced source.
-/

namespace PD

/-- The two actions of the game, source constants COOPERATE and DEFECT. -/
inductive Action where
  | C : Action
  | D : Action
deriving DecidableEq, Repr

/-- Seeded random number generator state (Mulberry32).  The stored seed in
JS is a float that grows by a fixed constant per draw; every bitwise
operator coerces it modulo 2^32, so a natural-number seed models it
exactly (JS float addition of these magnitudes is exact below 2^53). -/
structure SeededRandom where
  seed : ℕ
deriving DecidableEq, Repr

/-- One 32-bit multiplication, as JS Math.imul on bit patterns. -/
def imul32 (a b : ℕ) : ℕ := (a * b) % 4294967296

/-- One draw: returns the value in [0,1) and the advanced generator.
Mirrors SeededRandom.random from the source line by line; bitwise
operators act on the ToUint32 bit pattern of the running value. -/
def SeededRandom.random (g : SeededRandom) : ℚ × SeededRandom :=
  let seed2 := g.seed + 0x6D2B79F5
  let t0 := seed2 % 4294967296
  let t1 := imul32 (t0 ^^^ (t0 >>> 15)) (t0 ||| 1)
  let t2 := t1 ^^^ ((t1 + imul32 (t1 ^^^ (t1 >>> 7)) (t1 ||| 61)) % 4294967296)
  let out := t2 ^^^ (t2 >>> 14)
  ((out : ℚ) / 4294967296, ⟨seed2⟩)

/-- Reset to a given seed, source SeededRandom.reset. -/
def SeededRandom.reset (_ : SeededRandom) (seed : ℕ) : SeededRandom := ⟨seed⟩

/-- Sequence of the first n drawn values from a generator. -/
def SeededRandom.drawSeq (g : SeededRandom) : ℕ → List ℚ
  | 0 => []
  | n + 1 =>
      let (v, g2) := g.random
      v :: g2.drawSeq n

/-- Advance the generator by n draws, discarding the values. -/
def SeededRandom.skip (g : SeededRandom) : ℕ → SeededRandom
  | 0 => g
  | n + 1 => (g.random.2).skip n

/-- Payoff matrix with the four classical parameters. -/
structure PayoffMatrix where
  T : ℚ := 5
  R : ℚ := 3
  P : ℚ := 1
  S : ℚ := 0
deriving DecidableEq, Repr

/-- Source PayoffMatrix.getPayoff: the four-case payoff function. -/
def PayoffMatrix.getPayoff (m : PayoffMatrix) (action1 action2 : Action) : ℚ × ℚ :=
  if action1 = Action.C ∧ action2 = Action.C then
    (m.R, m.R)
  else if action1 = Action.C ∧ action2 = Action.D then
    (m.S, m.T)
  else if action1 = Action.D ∧ action2 = Action.C then
    (m.T, m.S)
  else
    (m.P, m.P)

/-- Variant tag of a strategy, carrying the variant-specific state:
the GRIM trigger flag and the GTFT forgiveness probability. -/
inductive StratKind where
  | allc : StratKind
  | alld : StratKind
  | tft : StratKind
  | grim : Bool → StratKind
  | gtft : ℚ → StratKind
deriving DecidableEq, Repr

/-- True exactly for the GTFT variant, the only one that draws. -/
def StratKind.usesRandom : StratKind → Bool
  | .gtft _ => true
  | _ => false

/-- A strategy object: display name, variant state, both histories and
the running score, as in the source base class plus subclasses. -/
structure Strategy where
  name : String
  kind : StratKind
  history : List Action := []
  opponentHistory : List Action := []
  score : ℚ := 0
deriving DecidableEq, Repr

/-- Source makeMove of each variant, acting on the strategy state and
the shared random source.  GRIM mutates its trigger flag; GTFT draws
exactly when the last opponent move was DEFECT. -/
def Strategy.makeMove (s : Strategy) (rng : SeededRandom) :
    Action × Strategy × SeededRandom :=
  match s.kind with
  | .allc => (Action.C, s, rng)
  | .alld => (Action.D, s, rng)
  | .tft =>
      match s.opponentHistory.getLast? with
      | none => (Action.C, s, rng)
      | some last => (last, s, rng)
  | .grim triggered =>
      if triggered then (Action.D, s, rng)
      else
        match s.opponentHistory.getLast? with
        | some Action.D => (Action.D, { s with kind := StratKind.grim true }, rng)
        | _ => (Action.C, s, rng)
  | .gtft forgiveness =>
      match s.opponentHistory.getLast? with
      | none => (Action.C, s, rng)
      | some lastOpponentMove =>
          if lastOpponentMove = Action.C then (Action.C, s, rng)
          else
            let (v, rng2) := rng.random
            if v < forgiveness then (Action.C, s, rng2)
            else (Action.D, s, rng2)

/-- Source Strategy.recordMove: append both moves to the histories. -/
def Strategy.recordMove (s : Strategy) (myMove opponentMove : Action) : Strategy :=
  { s with history := s.history ++ [myMove],
           opponentHistory := s.opponentHistory ++ [opponentMove] }

/-- Source Strategy.updateScore. -/
def Strategy.updateScore (s : Strategy) (payoff : ℚ) : Strategy :=
  { s with score := s.score + payoff }

/-- Source reset: clears histories and score; the GRIM subclass also
clears its trigger flag.  GTFT keeps its forgiveness parameter. -/
def Strategy.reset (s : Strategy) : Strategy :=
  { s with history := [], opponentHistory := [], score := 0,
           kind := match s.kind with
                   | StratKind.grim _ => StratKind.grim false
                   | k => k }

/-- Source Strategy.getCooperationRate: cooperations / total own
actions, 0 when no actions were recorded. -/
def Strategy.getCooperationRate (s : Strategy) : ℚ :=
  if s.history.length = 0 then 0
  else ((s.history.filter (fun move => move = Action.C)).length : ℚ) / (s.history.length : ℚ)

/-- Strategy parameters passed to the factory; only GTFT forgiveness
exists.  An absent key is modelled as none. -/
structure Params where
  forgiveness : Option ℚ := none
deriving DecidableEq, Repr

namespace StrategyFactory

/-- Source StrategyFactory.createStrategy: the five codes build the
corresponding strategy, anything else throws, modelled as Except. -/
def createStrategy (strategyCode : String) (params : Params) : Except String Strategy :=
  if strategyCode = "ALLC" then
    .ok { name := "Always Cooperate (ALL-C)", kind := StratKind.allc }
  else if strategyCode = "ALLD" then
    .ok { name := "Always Defect (ALL-D)", kind := StratKind.alld }
  else if strategyCode = "TFT" then
    .ok { name := "Tit-for-Tat (TFT)", kind := StratKind.tft }
  else if strategyCode = "GRIM" then
    .ok { name := "Grim Trigger", kind := StratKind.grim false }
  else if strategyCode = "GTFT" then
    let forgiveness := match params.forgiveness with
                       | some f => f
                       | none => 0.1
    .ok { name := "Generous TFT", kind := StratKind.gtft forgiveness }
  else
    .error ("Unknown strategy: " ++ strategyCode)

/-- Source StrategyFactory.getAllStrategyCodes. -/
def getAllStrategyCodes : List String := ["ALLC", "ALLD", "TFT", "GRIM", "GTFT"]

end StrategyFactory

/-- One stored round: 1-based index, both moves, both instantaneous
payoffs and both cumulative scores, as pushed by the source. -/
structure RoundRecord where
  round : ℕ
  move1 : Action
  move2 : Action
  payoff1 : ℚ
  payoff2 : ℚ
  cumScore1 : ℚ
  cumScore2 : ℚ
deriving DecidableEq, Repr

/-- The source result object returned by Game.play. -/
structure MatchResult where
  strategy1Name : String
  strategy2Name : String
  finalScore1 : ℚ
  finalScore2 : ℚ
  cooperationRate1 : ℚ
  cooperationRate2 : ℚ
  roundHistory : List RoundRecord
deriving DecidableEq, Repr

/-- A single match between two strategies, source class Game.  The
continuation probability is null (none) in fixed-length mode. -/
structure Game where
  strategy1 : Strategy
  strategy2 : Strategy
  payoffMatrix : PayoffMatrix
  numRounds : ℕ
  continuationProb : Option ℚ := none
  roundHistory : List RoundRecord := []
deriving DecidableEq, Repr

/-- Source Game.playRound: both strategies move (strategy1 first, so
its random consumption precedes strategy2), payoffs are computed,
moves recorded, scores updated, and a RoundRecord is appended. -/
def Game.playRound (g : Game) (rng : SeededRandom) : Game × SeededRandom :=
  let (move1, s1a, rng1) := g.strategy1.makeMove rng
  let (move2, s2a, rng2) := g.strategy2.makeMove rng1
  let (payoff1, payoff2) := g.payoffMatrix.getPayoff move1 move2
  let s1b := (s1a.recordMove move1 move2).updateScore payoff1
  let s2b := (s2a.recordMove move2 move1).updateScore payoff2
  let rec1 : RoundRecord :=
    { round := g.roundHistory.length + 1
      move1 := move1, move2 := move2
      payoff1 := payoff1, payoff2 := payoff2
      cumScore1 := s1b.score, cumScore2 := s2b.score }
  ({ g with strategy1 := s1b, strategy2 := s2b,
            roundHistory := g.roundHistory ++ [rec1] }, rng2)

/-- The fixed-length loop of Game.play: exactly n iterations. -/
def Game.playFixedLoop : ℕ → Game → SeededRandom → Game × SeededRandom
  | 0, g, rng => (g, rng)
  | n + 1, g, rng =>
      let (g2, rng2) := g.playRound rng
      Game.playFixedLoop n g2 rng2

/-- The indefinite-horizon loop of Game.play after the first round.
One value is drawn per iteration check (the source draws before the
round-count test, so the draw is consumed even at the 10000-round
ceiling); another round is played only when the draw is strictly
below the continuation probability and fuel remains.  The fuel is
maxRounds - roundCount, 9999 on entry. -/
def Game.indefLoop (p : ℚ) : ℕ → Game → SeededRandom → Game × SeededRandom
  | 0, g, rng => (g, rng.random.2)
  | fuel2 + 1, g, rng =>
      let (v, rng2) := rng.random
      if v < p then
        let (g2, rng3) := g.playRound rng2
        Game.indefLoop p fuel2 g2 rng3
      else (g, rng2)

/-- The initialization step of Game.play: both strategies reset and
the round log cleared. -/
def Game.resetStart (g : Game) : Game :=
  { g with strategy1 := g.strategy1.reset,
           strategy2 := g.strategy2.reset,
           roundHistory := [] }

/-- The result object Game.play reads off the final game state. -/
def Game.result (g : Game) : MatchResult :=
  { strategy1Name := g.strategy1.name
    strategy2Name := g.strategy2.name
    finalScore1 := g.strategy1.score
    finalScore2 := g.strategy2.score
    cooperationRate1 := g.strategy1.getCooperationRate
    cooperationRate2 := g.strategy2.getCooperationRate
    roundHistory := g.roundHistory }

/-- The loop phase of Game.play: from the reset state, run the fixed
loop or the indefinite-horizon loop (at least one round, 10000-round
safety ceiling) and return the final game state and generator. -/
def Game.playFinal (g : Game) (rng : SeededRandom) : Game × SeededRandom :=
  let g0 : Game := g.resetStart
  match g0.continuationProb with
  | some p =>
      let (g1, rng1) := g0.playRound rng
      Game.indefLoop p 9999 g1 rng1
  | none => Game.playFixedLoop g0.numRounds g0 rng

/-- Source Game.play: reset both strategies, clear the round log, run
the applicable loop and read the result off the final strategies. -/
def Game.play (g : Game) (rng : SeededRandom) : MatchResult × SeededRandom :=
  ((g.playFinal rng).1.result, (g.playFinal rng).2)

/-- Per-strategy aggregate built by runRoundRobin.  The source
initializes the first four fields to 0 and fills averageScore at the
end; the field starts at 0 here. -/
structure AggregatedStats where
  totalScore : ℚ
  gamesPlayed : ℕ
  cooperationRate : ℚ
  cooperationCount : ℚ
  averageScore : ℚ
deriving DecidableEq, Repr

/-- The tournament configuration, source class Tournament. -/
structure Tournament where
  payoffMatrix : PayoffMatrix
  numRounds : ℕ
  strategyParams : Params := {}
  continuationProb : Option ℚ := none
deriving DecidableEq, Repr

/-- The name-keyed score mapping of runRoundRobin, a JS object keyed
by display name with null for cells not yet played; modelled as a
function into Option. -/
def ScoreMap : Type := String → String → Option ℚ

/-- Point update of the score mapping. -/
def ScoreMap.set (m : ScoreMap) (a b : String) (v : ℚ) : ScoreMap :=
  fun x y => if x = a ∧ y = b then some v else m x y

/-- The index pairs (i, j) with i < j in the order of the two nested
source loops, instantiated with the strategy codes. -/
def distinctPairs (codes : List String) : List (String × String) :=
  (List.range codes.length).flatMap fun i =>
    ((List.range codes.length).filter fun j => i < j).map fun j =>
      (codes.getD i "", codes.getD j "")

namespace Tournament

/-- Build both strategies through the factory and play one game, as
each loop body of the source tournament does; a factory error
propagates as the JS exception would. -/
def playPairGame (t : Tournament) (code1 code2 : String) (rng : SeededRandom) :
    Except String (MatchResult × SeededRandom) :=
  match StrategyFactory.createStrategy code1 t.strategyParams with
  | .error e => .error e
  | .ok strategy1 =>
    match StrategyFactory.createStrategy code2 t.strategyParams with
    | .error e => .error e
    | .ok strategy2 =>
        .ok (Game.play { strategy1 := strategy1, strategy2 := strategy2,
                         payoffMatrix := t.payoffMatrix, numRounds := t.numRounds,
                         continuationProb := t.continuationProb,
                         roundHistory := [] } rng)

/-- Source runPairwise: one match, result returned directly. -/
def runPairwise (t : Tournament) (strategyCode1 strategyCode2 : String)
    (rng : SeededRandom) : Except String (MatchResult × SeededRandom) :=
  t.playPairGame strategyCode1 strategyCode2 rng

/-- The distinct-pair loop: plays each pair in order, pushes every
result onto matchResults and stores both directed scores in the
mapping. -/
def pairLoop (t : Tournament) :
    List (String × String) → ScoreMap → SeededRandom →
    Except String (List MatchResult × ScoreMap × SeededRandom)
  | [], pm, rng => .ok ([], pm, rng)
  | pr :: rest, pm, rng =>
    match t.playPairGame pr.1 pr.2 rng with
    | .error e => .error e
    | .ok resrng =>
      let result := resrng.1
      let pm2 := (pm.set result.strategy1Name result.strategy2Name result.finalScore1).set
        result.strategy2Name result.strategy1Name result.finalScore2
      match t.pairLoop rest pm2 resrng.2 with
      | .error e => .error e
      | .ok out => .ok (result :: out.1, out.2.1, out.2.2)

/-- The self-play loop: each strategy against a fresh instance of
itself; only the diagonal of the score mapping is written — the
result is not pushed onto matchResults, mirroring the source. -/
def selfLoop (t : Tournament) :
    List String → ScoreMap → SeededRandom →
    Except String (ScoreMap × SeededRandom)
  | [], pm, rng => .ok (pm, rng)
  | c :: rest, pm, rng =>
    match t.playPairGame c c rng with
    | .error e => .error e
    | .ok resrng =>
      let pm2 := pm.set resrng.1.strategy1Name resrng.1.strategy1Name resrng.1.finalScore1
      t.selfLoop rest pm2 resrng.2

/-- Display names of a list of codes, via the factory as the source
does. -/
def namesOf (params : Params) : List String → Except String (List String)
  | [] => .ok []
  | c :: cs =>
    match StrategyFactory.createStrategy c params with
    | .error e => .error e
    | .ok s =>
      match namesOf params cs with
      | .error e => .error e
      | .ok rest => .ok (s.name :: rest)

/-- Zero-initialized aggregate entry per strategy display name. -/
def initAgg (params : Params) : List String → Except String (List (String × AggregatedStats))
  | [] => .ok []
  | c :: cs =>
    match StrategyFactory.createStrategy c params with
    | .error e => .error e
    | .ok s =>
      match initAgg params cs with
      | .error e => .error e
      | .ok rest => .ok ((s.name, ⟨0, 0, 0, 0, 0⟩) :: rest)

/-- Update the aggregate entry of one display name in place. -/
def updAgg (m : List (String × AggregatedStats)) (name : String)
    (f : AggregatedStats → AggregatedStats) : List (String × AggregatedStats) :=
  m.map fun p => if p.1 = name then (p.1, f p.2) else p

/-- The per-result aggregation step of the source forEach: credit the
first strategy, then the second. -/
def aggStep (m : List (String × AggregatedStats)) (result : MatchResult) :
    List (String × AggregatedStats) :=
  let m1 := updAgg m result.strategy1Name fun a =>
    { a with totalScore := a.totalScore + result.finalScore1,
             gamesPlayed := a.gamesPlayed + 1,
             cooperationCount := a.cooperationCount + result.cooperationRate1 }
  updAgg m1 result.strategy2Name fun a =>
    { a with totalScore := a.totalScore + result.finalScore2,
             gamesPlayed := a.gamesPlayed + 1,
             cooperationCount := a.cooperationCount + result.cooperationRate2 }

/-- The output object of runRoundRobin. -/
structure RoundRobinResult where
  matchResults : List MatchResult
  aggregated : List (String × AggregatedStats)
  scoreMap : ScoreMap
  strategyNames : List String

/-- Source Tournament.runRoundRobin: every distinct pair once in
ascending index order, then every self-pairing, then aggregation over
the matchResults list and the average computation.  The rational
division by gamesPlayed matches the source except when gamesPlayed is
zero (JS NaN, Lean 0), which no entry produced here exhibits. -/
def runRoundRobin (t : Tournament) (rng : SeededRandom) :
    Except String (RoundRobinResult × SeededRandom) :=
  match namesOf t.strategyParams StrategyFactory.getAllStrategyCodes with
  | .error e => .error e
  | .ok strategyNames =>
    match t.pairLoop (distinctPairs StrategyFactory.getAllStrategyCodes)
        (fun _ _ => none) rng with
    | .error e => .error e
    | .ok pairOut =>
      match t.selfLoop StrategyFactory.getAllStrategyCodes pairOut.2.1 pairOut.2.2 with
      | .error e => .error e
      | .ok selfOut =>
        match initAgg t.strategyParams StrategyFactory.getAllStrategyCodes with
        | .error e => .error e
        | .ok agg0 =>
          let matchResults := pairOut.1
          let agg1 := matchResults.foldl aggStep agg0
          let agg2 := agg1.map fun p =>
            (p.1, { p.2 with averageScore := p.2.totalScore / (p.2.gamesPlayed : ℚ),
                             cooperationRate := p.2.cooperationCount / (p.2.gamesPlayed : ℚ) })
          .ok ({ matchResults := matchResults, aggregated := agg2,
                 scoreMap := selfOut.1, strategyNames := strategyNames }, selfOut.2)

end Tournament

/-! ### Helper lemmas about the random source -/

lemma imul32_lt (a b : ℕ) : imul32 a b < 4294967296 :=
  Nat.mod_lt _ (by norm_num)

lemma xor_lt_32 {a b : ℕ} (ha : a < 4294967296) (hb : b < 4294967296) :
    a ^^^ b < 4294967296 := by
  have h : (4294967296 : ℕ) = 2 ^ 32 := by norm_num
  rw [h] at ha hb ⊢
  exact Nat.xor_lt_two_pow ha hb

lemma shiftRight_le_self (a n : ℕ) : a >>> n ≤ a := by
  rw [Nat.shiftRight_eq_div_pow]
  exact Nat.div_le_self a (2 ^ n)

/-- The drawn value is a 32-bit pattern divided by 2 to the 32. -/
lemma random_fst_eq (g : SeededRandom) :
    ∃ out : ℕ, out < 4294967296 ∧ g.random.1 = (out : ℚ) / 4294967296 := by
  refine ⟨_, ?_, rfl⟩
  apply xor_lt_32
  · apply xor_lt_32 (imul32_lt _ _)
    exact Nat.mod_lt _ (by norm_num)
  · exact lt_of_le_of_lt (shiftRight_le_self _ _)
      (xor_lt_32 (imul32_lt _ _) (Nat.mod_lt _ (by norm_num)))

/-- Every drawn value lies in the interval from 0 inclusive to 1
exclusive. -/
lemma random_fst_bounds (g : SeededRandom) : 0 ≤ g.random.1 ∧ g.random.1 < 1 := by
  obtain ⟨out, hlt, heq⟩ := random_fst_eq g
  rw [heq]
  constructor
  · positivity
  · rw [div_lt_one (by norm_num)]
    exact_mod_cast hlt

lemma mem_drawSeq_bounds (g : SeededRandom) (n : ℕ) :
    ∀ v ∈ g.drawSeq n, 0 ≤ v ∧ v < 1 := by
  induction n generalizing g with
  | zero => intro v hv; simp [SeededRandom.drawSeq] at hv
  | succ m ih =>
      intro v hv
      simp only [SeededRandom.drawSeq, List.mem_cons] at hv
      rcases hv with h | h
      · rw [h]; exact random_fst_bounds g
      · exact ih _ v h

/-- Claim C4: two RandomSource instances reset to the same seed
produce identical value sequences for any number of draws, every
drawn value lies in the interval from 0 inclusive to 1 exclusive, and
seed 0 goes through the same mixing transform as any other seed
(there is no special case: the theorem quantifies over every seed and
the witness instantiates it at 0). -/
theorem seededRandom_deterministic_and_bounded :
    ∀ (r1 r2 : SeededRandom) (s n : ℕ),
      (r1.reset s).drawSeq n = (r2.reset s).drawSeq n ∧
      ∀ v ∈ (r1.reset s).drawSeq n, 0 ≤ v ∧ v < 1 := by
  intro r1 r2 s n
  exact ⟨rfl, mem_drawSeq_bounds _ n⟩

/-- Witness for C4 at seed 0 and one draw. -/
theorem seededRandom_deterministic_and_bounded_witness :
    0 ≤ (SeededRandom.random ⟨0⟩).1 ∧ (SeededRandom.random ⟨0⟩).1 < 1 := by
  have h := (seededRandom_deterministic_and_bounded ⟨0⟩ ⟨7⟩ 0 1).2
  exact h _ (by simp [SeededRandom.drawSeq, SeededRandom.reset])

/-- Claim C5: the payoff function realizes exactly the four classical
cases for every numeric payoff matrix, and the two concrete values of
the spec hold at T equal 5, R equal 3, P equal 1, S equal 0. -/
theorem getPayoff_cases :
    (∀ m : PayoffMatrix, m.getPayoff Action.C Action.C = (m.R, m.R)) ∧
    (∀ m : PayoffMatrix, m.getPayoff Action.C Action.D = (m.S, m.T)) ∧
    (∀ m : PayoffMatrix, m.getPayoff Action.D Action.C = (m.T, m.S)) ∧
    (∀ m : PayoffMatrix, m.getPayoff Action.D Action.D = (m.P, m.P)) ∧
    PayoffMatrix.getPayoff { T := 5, R := 3, P := 1, S := 0 } Action.C Action.D = (0, 5) ∧
    PayoffMatrix.getPayoff { T := 5, R := 3, P := 1, S := 0 } Action.D Action.D = (1, 1) :=
  ⟨fun _ => rfl, fun _ => rfl, fun _ => rfl, fun _ => rfl, rfl, rfl⟩

/-- Claim C9: the factory succeeds exactly on the five codes, yields
the corresponding strategy with its display name, and fails with the
unknown-strategy error on every other code. -/
theorem createStrategy_spec :
    (∀ params : Params, StrategyFactory.createStrategy "ALLC" params =
      .ok { name := "Always Cooperate (ALL-C)", kind := StratKind.allc }) ∧
    (∀ params : Params, StrategyFactory.createStrategy "ALLD" params =
      .ok { name := "Always Defect (ALL-D)", kind := StratKind.alld }) ∧
    (∀ params : Params, StrategyFactory.createStrategy "TFT" params =
      .ok { name := "Tit-for-Tat (TFT)", kind := StratKind.tft }) ∧
    (∀ params : Params, StrategyFactory.createStrategy "GRIM" params =
      .ok { name := "Grim Trigger", kind := StratKind.grim false }) ∧
    (∀ params : Params, StrategyFactory.createStrategy "GTFT" params =
      .ok { name := "Generous TFT",
            kind := StratKind.gtft (params.forgiveness.getD 0.1) }) ∧
    (∀ (code : String) (params : Params), code ∉ StrategyFactory.getAllStrategyCodes →
      StrategyFactory.createStrategy code params =
        .error ("Unknown strategy: " ++ code)) := by
  refine ⟨fun _ => rfl, fun _ => rfl, fun _ => rfl, fun _ => rfl, ?_, ?_⟩
  · intro params
    obtain ⟨f⟩ := params
    cases f <;> rfl
  · intro code params h
    simp only [StrategyFactory.getAllStrategyCodes, List.mem_cons, List.mem_singleton,
      not_or] at h
    obtain ⟨h1, h2, h3, h4, h5⟩ := h
    simp only [StrategyFactory.createStrategy, if_neg h1, if_neg h2, if_neg h3,
      if_neg h4, if_neg h5.1]

/-- Witness for C9: an unknown code fails loudly. -/
theorem createStrategy_spec_witness :
    StrategyFactory.createStrategy "XYZ" {} = .error ("Unknown strategy: " ++ "XYZ") :=
  createStrategy_spec.2.2.2.2.2 "XYZ" {} (by decide)

/-- Claim C2: a GTFT decision consumes exactly one draw when the last
recorded opponent action was DEFECT and none otherwise, cooperates
exactly when the opponent history is empty, the last opponent action
was COOPERATE, or the draw is strictly below the forgiveness
probability; and at forgiveness 0 the decision always equals the TFT
decision on the same opponent history (while the defection branch
still consumes its draw, covered by the first conjunct). -/
theorem gtft_decide_spec :
    (∀ (s : Strategy) (f : ℚ) (rng : SeededRandom), s.kind = StratKind.gtft f →
      ((s.opponentHistory.getLast? = some Action.D →
          (s.makeMove rng).2.2 = rng.random.2) ∧
       (s.opponentHistory.getLast? ≠ some Action.D →
          (s.makeMove rng).2.2 = rng) ∧
       ((s.makeMove rng).1 = Action.C ↔
          (s.opponentHistory = [] ∨ s.opponentHistory.getLast? = some Action.C ∨
            rng.random.1 < f)))) ∧
    (∀ (s t : Strategy) (rng : SeededRandom), s.kind = StratKind.gtft 0 →
      t.kind = StratKind.tft → s.opponentHistory = t.opponentHistory →
      (s.makeMove rng).1 = (t.makeMove rng).1) := by
  constructor
  · intro s f rng hk
    rcases hlast : s.opponentHistory.getLast? with _ | a
    · have hnil : s.opponentHistory = [] := List.getLast?_eq_none_iff.mp hlast
      refine ⟨?_, ?_, ?_⟩
      · intro h
        simp at h
      · intro _
        simp only [Strategy.makeMove, hk, hlast]
      · simp only [Strategy.makeMove, hk, hlast, hnil]
        simp
    · have hne : s.opponentHistory ≠ [] := by
        intro he
        rw [he] at hlast
        simp at hlast
      cases a with
      | C =>
          refine ⟨?_, ?_, ?_⟩
          · intro h
            simp at h
          · intro _
            simp only [Strategy.makeMove, hk, hlast]
            simp
          · simp only [Strategy.makeMove, hk, hlast]
            simp
      | D =>
          have hdc : ¬(Action.D = Action.C) := by decide
          refine ⟨?_, ?_, ?_⟩
          · intro _
            simp only [Strategy.makeMove, hk, hlast]
            rw [if_neg hdc]
            split <;> rfl
          · intro h
            exact absurd rfl h
          · simp only [Strategy.makeMove, hk, hlast]
            rw [if_neg hdc]
            constructor
            · intro h
              right; right
              by_contra hge
              rw [if_neg hge] at h
              cases h
            · intro h
              rcases h with h | h | h
              · exact absurd h hne
              · simp at h
              · rw [if_pos h]
  · intro s t rng hs ht hh
    have hlast2 : t.opponentHistory.getLast? = s.opponentHistory.getLast? := by rw [hh]
    rcases hlast : s.opponentHistory.getLast? with _ | a
    · rw [hlast] at hlast2
      simp only [Strategy.makeMove, hs, ht, hlast, hlast2]
    · rw [hlast] at hlast2
      cases a with
      | C =>
          simp only [Strategy.makeMove, hs, ht, hlast, hlast2]
          simp
      | D =>
          have hv : ¬rng.random.1 < (0 : ℚ) := not_lt.mpr (random_fst_bounds rng).1
          simp only [Strategy.makeMove, hs, ht, hlast, hlast2]
          rw [if_neg (by decide : ¬(Action.D = Action.C)), if_neg hv]

/-- Witness for C2: a GTFT state facing a last defection consumes
exactly one draw, and at forgiveness 0 it plays the TFT move. -/
theorem gtft_decide_spec_witness :
    (Strategy.makeMove
        { name := "Generous TFT", kind := StratKind.gtft (1 / 2),
          opponentHistory := [Action.D] } ⟨42⟩).2.2 =
      (SeededRandom.random ⟨42⟩).2 ∧
    (Strategy.makeMove
        { name := "Generous TFT", kind := StratKind.gtft 0,
          opponentHistory := [Action.D] } ⟨42⟩).1 =
      (Strategy.makeMove
        { name := "Tit-for-Tat (TFT)", kind := StratKind.tft,
          opponentHistory := [Action.D] } ⟨42⟩).1 :=
  ⟨((gtft_decide_spec.1 _ (1 / 2) ⟨42⟩ rfl).1) rfl,
   gtft_decide_spec.2 _ _ ⟨42⟩ rfl rfl rfl⟩

/-- Claim C6: the GRIM latch. A triggered GRIM plays DEFECT and stays
triggered through every decision; recording moves and updating scores
never change the latch; an untriggered GRIM cooperates as long as the
most recent observed opponent action is not DEFECT, and on observing
a most recent opponent DEFECT it plays DEFECT and sets the trigger;
only the match-start reset clears the latch; and along any
fixed-length match continuation every round a triggered GRIM plays as
strategy 1 has move 1 DEFECT. -/
theorem grim_latch_spec :
    (∀ (s : Strategy) (rng : SeededRandom), s.kind = StratKind.grim true →
      (s.makeMove rng).1 = Action.D ∧
      (s.makeMove rng).2.1.kind = StratKind.grim true ∧
      (s.makeMove rng).2.2 = rng) ∧
    (∀ (s : Strategy) (m o : Action), (s.recordMove m o).kind = s.kind) ∧
    (∀ (s : Strategy) (q : ℚ), (s.updateScore q).kind = s.kind) ∧
    (∀ (s : Strategy) (rng : SeededRandom), s.kind = StratKind.grim false →
      s.opponentHistory.getLast? ≠ some Action.D →
      (s.makeMove rng).1 = Action.C) ∧
    (∀ (s : Strategy) (rng : SeededRandom), s.kind = StratKind.grim false →
      s.opponentHistory.getLast? = some Action.D →
      (s.makeMove rng).1 = Action.D ∧
      (s.makeMove rng).2.1.kind = StratKind.grim true ∧
      (s.makeMove rng).2.2 = rng) ∧
    (∀ (s : Strategy) (b : Bool), s.kind = StratKind.grim b →
      s.reset.kind = StratKind.grim false) ∧
    (∀ (n : ℕ) (g : Game) (rng : SeededRandom), g.strategy1.kind = StratKind.grim true →
      (Game.playFixedLoop n g rng).1.strategy1.kind = StratKind.grim true ∧
      ∀ r ∈ (Game.playFixedLoop n g rng).1.roundHistory,
        r ∈ g.roundHistory ∨ r.move1 = Action.D) := by
  have hmk : ∀ (s : Strategy) (rng : SeededRandom), s.kind = StratKind.grim true →
      s.makeMove rng = (Action.D, s, rng) := by
    intro s rng h
    simp [Strategy.makeMove, h]
  have hstep : ∀ (g : Game) (rng : SeededRandom), g.strategy1.kind = StratKind.grim true →
      (g.playRound rng).1.strategy1.kind = StratKind.grim true ∧
      ∀ r ∈ (g.playRound rng).1.roundHistory, r ∈ g.roundHistory ∨ r.move1 = Action.D := by
    intro g rng h
    simp only [Game.playRound, hmk g.strategy1 rng h]
    refine ⟨by simp [Strategy.updateScore, Strategy.recordMove, h], ?_⟩
    intro r hr
    simp only [List.mem_append, List.mem_singleton] at hr
    rcases hr with hr | hr
    · exact Or.inl hr
    · right; rw [hr]
  refine ⟨?_, ?_, ?_, ?_, ?_, ?_, ?_⟩
  · intro s rng h
    rw [hmk s rng h]
    exact ⟨rfl, h, rfl⟩
  · intro s m o; rfl
  · intro s q; rfl
  · intro s rng h hlast
    rcases hl : s.opponentHistory.getLast? with _ | a
    · simp [Strategy.makeMove, h, hl]
    · cases a with
      | C => simp [Strategy.makeMove, h, hl]
      | D => exact absurd hl hlast
  · intro s rng h hl
    simp [Strategy.makeMove, h, hl]
  · intro s b h
    simp [Strategy.reset, h]
  · intro n
    induction n with
    | zero =>
        intro g rng h
        exact ⟨h, fun r hr => Or.inl hr⟩
    | succ m ih =>
        intro g rng h
        obtain ⟨hk, hh⟩ := hstep g rng h
        have hrec := ih (g.playRound rng).1 (g.playRound rng).2 hk
        refine ⟨hrec.1, ?_⟩
        intro r hr
        rcases hrec.2 r hr with hr2 | hr2
        · exact hh r hr2
        · exact Or.inr hr2

/-- Witness for C6: a concrete triggered GRIM state defects, a
concrete untriggered GRIM that just observed DEFECT defects and sets
its trigger, the latch survives a fixed-length round, and reset
clears it. -/
theorem grim_latch_spec_witness :
    ((Strategy.makeMove
        { name := "Grim Trigger", kind := StratKind.grim true,
          opponentHistory := [Action.C] } ⟨5⟩).1 = Action.D ∧
      (Strategy.makeMove
        { name := "Grim Trigger", kind := StratKind.grim true,
          opponentHistory := [Action.C] } ⟨5⟩).2.1.kind = StratKind.grim true ∧
      (Strategy.makeMove
        { name := "Grim Trigger", kind := StratKind.grim true,
          opponentHistory := [Action.C] } ⟨5⟩).2.2 = (⟨5⟩ : SeededRandom)) ∧
    ((Strategy.makeMove
        { name := "Grim Trigger", kind := StratKind.grim false,
          opponentHistory := [Action.C, Action.D] } ⟨7⟩).1 = Action.D ∧
      (Strategy.makeMove
        { name := "Grim Trigger", kind := StratKind.grim false,
          opponentHistory := [Action.C, Action.D] } ⟨7⟩).2.1.kind =
        StratKind.grim true ∧
      (Strategy.makeMove
        { name := "Grim Trigger", kind := StratKind.grim false,
          opponentHistory := [Action.C, Action.D] } ⟨7⟩).2.2 = (⟨7⟩ : SeededRandom)) ∧
    (Strategy.reset
        { name := "Grim Trigger", kind := StratKind.grim true }).kind =
      StratKind.grim false ∧
    ∀ r ∈ (Game.playFixedLoop 2
        { strategy1 := { name := "Grim Trigger", kind := StratKind.grim true },
          strategy2 := { name := "Always Cooperate (ALL-C)", kind := StratKind.allc },
          payoffMatrix := {}, numRounds := 2 } ⟨5⟩).1.roundHistory,
      r ∈ ([] : List RoundRecord) ∨ r.move1 = Action.D :=
  ⟨grim_latch_spec.1 _ ⟨5⟩ rfl,
   grim_latch_spec.2.2.2.2.1 _ ⟨7⟩ rfl rfl,
   grim_latch_spec.2.2.2.2.2.1 _ true rfl,
   (grim_latch_spec.2.2.2.2.2.2 2 _ ⟨5⟩ rfl).2⟩

/-! ### Helper lemmas about the match engine -/

lemma resetStart_continuationProb (g : Game) :
    g.resetStart.continuationProb = g.continuationProb := rfl

lemma resetStart_numRounds (g : Game) : g.resetStart.numRounds = g.numRounds := rfl

lemma result_roundHistory (g : Game) : g.result.roundHistory = g.roundHistory := rfl

lemma result_strategy1Name (g : Game) : g.result.strategy1Name = g.strategy1.name := rfl

lemma result_strategy2Name (g : Game) : g.result.strategy2Name = g.strategy2.name := rfl

lemma result_finalScore1 (g : Game) : g.result.finalScore1 = g.strategy1.score := rfl

lemma result_finalScore2 (g : Game) : g.result.finalScore2 = g.strategy2.score := rfl

/-- With a null continuation probability, the loop phase is the fixed
loop on the reset state. -/
lemma playFinal_fixed (g : Game) (rng : SeededRandom) (hcp : g.continuationProb = none) :
    g.playFinal rng = Game.playFixedLoop g.numRounds g.resetStart rng := by
  simp only [Game.playFinal, resetStart_continuationProb, hcp]
  rfl

/-- With a null continuation probability, play is the fixed loop on
the reset state. -/
lemma play_fixed_eq (g : Game) (rng : SeededRandom) (hcp : g.continuationProb = none) :
    g.play rng = ((Game.playFixedLoop g.numRounds g.resetStart rng).1.result,
                  (Game.playFixedLoop g.numRounds g.resetStart rng).2) := by
  show ((g.playFinal rng).1.result, (g.playFinal rng).2) = _
  rw [playFinal_fixed g rng hcp]

/-- With a continuation probability, the loop phase is one round
followed by the indefinite-horizon loop with fuel 9999. -/
lemma playFinal_indef (g : Game) (p : ℚ) (rng : SeededRandom)
    (hcp : g.continuationProb = some p) :
    g.playFinal rng =
      Game.indefLoop p 9999 (g.resetStart.playRound rng).1
        (g.resetStart.playRound rng).2 := by
  simp only [Game.playFinal, resetStart_continuationProb, hcp]

/-- First component of play in indefinite-horizon mode. -/
lemma play_indef_fst (g : Game) (p : ℚ) (rng : SeededRandom)
    (hcp : g.continuationProb = some p) :
    (g.play rng).1 =
      (Game.indefLoop p 9999 (g.resetStart.playRound rng).1
        (g.resetStart.playRound rng).2).1.result :=
  congrArg (fun x : Game × SeededRandom => x.1.result) (playFinal_indef g p rng hcp)

/-- Second component of play in indefinite-horizon mode. -/
lemma play_indef_snd (g : Game) (p : ℚ) (rng : SeededRandom)
    (hcp : g.continuationProb = some p) :
    (g.play rng).2 =
      (Game.indefLoop p 9999 (g.resetStart.playRound rng).1
        (g.resetStart.playRound rng).2).2 :=
  congrArg Prod.snd (playFinal_indef g p rng hcp)

lemma makeMove_preserve (s : Strategy) (rng : SeededRandom) :
    (s.makeMove rng).2.1.name = s.name ∧
    (s.makeMove rng).2.1.history = s.history ∧
    (s.makeMove rng).2.1.opponentHistory = s.opponentHistory ∧
    (s.makeMove rng).2.1.score = s.score ∧
    (s.makeMove rng).2.1.kind.usesRandom = s.kind.usesRandom := by
  rcases hk : s.kind with _ | _ | _ | b | f
  · simp [Strategy.makeMove, hk]
  · simp [Strategy.makeMove, hk]
  · simp only [Strategy.makeMove, hk]
    rcases s.opponentHistory.getLast? with _ | a <;> simp [hk]
  · simp only [Strategy.makeMove, hk]
    cases b
    · rcases s.opponentHistory.getLast? with _ | a
      · simp [hk]
      · cases a <;> simp [hk, StratKind.usesRandom]
    · simp [hk]
  · simp only [Strategy.makeMove, hk]
    rcases s.opponentHistory.getLast? with _ | a
    · simp [hk]
    · cases a
      · simp [hk]
      · simp only [hk]
        split
        · simp [hk]
        · split <;> simp [hk]

lemma makeMove_rng_of_not_random (s : Strategy) (rng : SeededRandom)
    (h : s.kind.usesRandom = false) : (s.makeMove rng).2.2 = rng := by
  rcases hk : s.kind with _ | _ | _ | b | f
  · simp [Strategy.makeMove, hk]
  · simp [Strategy.makeMove, hk]
  · simp only [Strategy.makeMove, hk]
    rcases s.opponentHistory.getLast? with _ | a <;> simp
  · simp only [Strategy.makeMove, hk]
    cases b
    · rcases s.opponentHistory.getLast? with _ | a
      · simp
      · cases a <;> simp
    · simp
  · rw [hk] at h
    simp [StratKind.usesRandom] at h

lemma playRound_preserve (g : Game) (rng : SeededRandom) :
    (g.playRound rng).1.strategy1.name = g.strategy1.name ∧
    (g.playRound rng).1.strategy2.name = g.strategy2.name ∧
    (g.playRound rng).1.payoffMatrix = g.payoffMatrix ∧
    (g.playRound rng).1.numRounds = g.numRounds ∧
    (g.playRound rng).1.continuationProb = g.continuationProb ∧
    (g.playRound rng).1.roundHistory.length = g.roundHistory.length + 1 ∧
    (g.playRound rng).1.strategy1.kind.usesRandom = g.strategy1.kind.usesRandom ∧
    (g.playRound rng).1.strategy2.kind.usesRandom = g.strategy2.kind.usesRandom :=
  ⟨(makeMove_preserve g.strategy1 rng).1,
   (makeMove_preserve g.strategy2 _).1,
   rfl, rfl, rfl, by simp [Game.playRound],
   (makeMove_preserve g.strategy1 rng).2.2.2.2,
   (makeMove_preserve g.strategy2 _).2.2.2.2⟩

lemma playRound_rng_drawFree (g : Game) (rng : SeededRandom)
    (h1 : g.strategy1.kind.usesRandom = false)
    (h2 : g.strategy2.kind.usesRandom = false) :
    (g.playRound rng).2 = rng := by
  show (g.strategy2.makeMove (g.strategy1.makeMove rng).2.2).2.2 = rng
  rw [makeMove_rng_of_not_random g.strategy1 rng h1,
      makeMove_rng_of_not_random g.strategy2 rng h2]

lemma playFixedLoop_len : ∀ (n : ℕ) (g : Game) (rng : SeededRandom),
    (Game.playFixedLoop n g rng).1.roundHistory.length = g.roundHistory.length + n := by
  intro n
  induction n with
  | zero => intro g rng; rfl
  | succ m ih =>
      intro g rng
      show (Game.playFixedLoop m (g.playRound rng).1 (g.playRound rng).2).1.roundHistory.length = _
      rw [ih, (playRound_preserve g rng).2.2.2.2.2.1]
      omega

/-- Claim C7: in fixed-length mode the engine plays exactly numRounds
rounds for every natural number of rounds; zero rounds yields the
empty-history result with both scores and both cooperation rates 0;
and the cooperation rate of any strategy with no recorded own actions
is 0. -/
theorem fixed_mode_spec :
    (∀ (g : Game) (rng : SeededRandom), g.continuationProb = none →
      (g.play rng).1.roundHistory.length = g.numRounds) ∧
    (∀ (g : Game) (rng : SeededRandom), g.continuationProb = none → g.numRounds = 0 →
      (g.play rng).1 =
        { strategy1Name := g.strategy1.name, strategy2Name := g.strategy2.name,
          finalScore1 := 0, finalScore2 := 0,
          cooperationRate1 := 0, cooperationRate2 := 0, roundHistory := [] }) ∧
    (∀ s : Strategy, s.history = [] → s.getCooperationRate = 0) := by
  refine ⟨?_, ?_, ?_⟩
  · intro g rng hcp
    rw [play_fixed_eq g rng hcp]
    show (Game.playFixedLoop g.numRounds g.resetStart rng).1.roundHistory.length = _
    rw [playFixedLoop_len]
    simp [Game.resetStart]
  · intro g rng hcp hn
    rw [play_fixed_eq g rng hcp, hn]
    rfl
  · intro s hs
    simp [Strategy.getCooperationRate, hs]

/-- Witness for C7 at zero rounds between two concrete strategies. -/
theorem fixed_mode_spec_witness :
    (Game.play
      { strategy1 := { name := "Always Defect (ALL-D)", kind := StratKind.alld },
        strategy2 := { name := "Tit-for-Tat (TFT)", kind := StratKind.tft },
        payoffMatrix := {}, numRounds := 0, continuationProb := none } ⟨42⟩).1 =
    { strategy1Name := "Always Defect (ALL-D)", strategy2Name := "Tit-for-Tat (TFT)",
      finalScore1 := 0, finalScore2 := 0,
      cooperationRate1 := 0, cooperationRate2 := 0, roundHistory := [] } :=
  fixed_mode_spec.2.1 _ ⟨42⟩ rfl rfl

/-! ### Helper development for the TFT mutual-cooperation theorem -/

/-- Invariant after k rounds of TFT against TFT: both sides carry
only COOPERATE in every history, both scores are k times the reward,
and every recorded round is mutual cooperation. -/
def TftCoop (k : ℕ) (g : Game) : Prop :=
  g.strategy1.kind = StratKind.tft ∧ g.strategy2.kind = StratKind.tft ∧
  g.strategy1.history = List.replicate k Action.C ∧
  g.strategy1.opponentHistory = List.replicate k Action.C ∧
  g.strategy1.score = k * g.payoffMatrix.R ∧
  g.strategy2.history = List.replicate k Action.C ∧
  g.strategy2.opponentHistory = List.replicate k Action.C ∧
  g.strategy2.score = k * g.payoffMatrix.R ∧
  ∀ r ∈ g.roundHistory, r.move1 = Action.C ∧ r.move2 = Action.C

lemma tft_move_replicate (s : Strategy) (rng : SeededRandom) (k : ℕ)
    (hk : s.kind = StratKind.tft)
    (ho : s.opponentHistory = List.replicate k Action.C) :
    s.makeMove rng = (Action.C, s, rng) := by
  simp only [Strategy.makeMove, hk, ho]
  cases k with
  | zero => rfl
  | succ j =>
      rw [List.replicate_succ' j Action.C, List.getLast?_concat]

lemma tft_playRound_step (k : ℕ) (g : Game) (rng : SeededRandom) (h : TftCoop k g) :
    TftCoop (k + 1) (g.playRound rng).1 ∧ (g.playRound rng).2 = rng := by
  obtain ⟨hk1, hk2, hh1, ho1, hs1, hh2, ho2, hs2, hall⟩ := h
  have hm1 := tft_move_replicate g.strategy1 rng k hk1 ho1
  have hm2 := tft_move_replicate g.strategy2 rng k hk2 ho2
  have hpay : g.payoffMatrix.getPayoff Action.C Action.C =
      (g.payoffMatrix.R, g.payoffMatrix.R) := rfl
  constructor
  · refine ⟨?_, ?_, ?_, ?_, ?_, ?_, ?_, ?_, ?_⟩ <;>
      simp only [Game.playRound, hm1, hm2, hpay, Strategy.recordMove,
        Strategy.updateScore]
    · exact hk1
    · exact hk2
    · rw [hh1, ← List.replicate_succ' k Action.C]
    · rw [ho1, ← List.replicate_succ' k Action.C]
    · rw [hs1]; push_cast; ring
    · rw [hh2, ← List.replicate_succ' k Action.C]
    · rw [ho2, ← List.replicate_succ' k Action.C]
    · rw [hs2]; push_cast; ring
    · intro r hr
      rcases List.mem_append.mp hr with hr | hr
      · exact hall r hr
      · rw [List.mem_singleton.mp hr]
        exact ⟨rfl, rfl⟩
  · show (g.strategy2.makeMove (g.strategy1.makeMove rng).2.2).2.2 = rng
    rw [hm1, hm2]

lemma tft_loop_invariant : ∀ (n k : ℕ) (g : Game) (rng : SeededRandom), TftCoop k g →
    TftCoop (k + n) (Game.playFixedLoop n g rng).1 ∧
    (Game.playFixedLoop n g rng).1.payoffMatrix = g.payoffMatrix := by
  intro n
  induction n with
  | zero => intro k g rng h; exact ⟨h, rfl⟩
  | succ m ih =>
      intro k g rng h
      obtain ⟨hstep, _⟩ := tft_playRound_step k g rng h
      have hrec := ih (k + 1) (g.playRound rng).1 (g.playRound rng).2 hstep
      have harith : k + (m + 1) = k + 1 + m := by omega
      refine ⟨harith ▸ hrec.1, ?_⟩
      show (Game.playFixedLoop m (g.playRound rng).1 (g.playRound rng).2).1.payoffMatrix = _
      rw [hrec.2]
      exact (playRound_preserve g rng).2.2.1

/-- Claim C8: a fixed-length match of TFT against TFT produces mutual
cooperation in every recorded round, and both final scores equal the
round count times the reward payoff, for every positive round count. -/
theorem tft_vs_tft_all_cooperate (g : Game) (rng : SeededRandom)
    (h1 : g.strategy1.kind = StratKind.tft) (h2 : g.strategy2.kind = StratKind.tft)
    (hcp : g.continuationProb = none) (hn : 0 < g.numRounds) :
    (∀ r ∈ (g.play rng).1.roundHistory, r.move1 = Action.C ∧ r.move2 = Action.C) ∧
    (g.play rng).1.finalScore1 = g.numRounds * g.payoffMatrix.R ∧
    (g.play rng).1.finalScore2 = g.numRounds * g.payoffMatrix.R := by
  have h0 : TftCoop 0 g.resetStart := by
    refine ⟨?_, ?_, rfl, rfl, by simp [Game.resetStart, Strategy.reset],
      rfl, rfl, by simp [Game.resetStart, Strategy.reset], by simp [Game.resetStart]⟩
    · show (g.strategy1.reset).kind = StratKind.tft
      simp [Strategy.reset, h1]
    · show (g.strategy2.reset).kind = StratKind.tft
      simp [Strategy.reset, h2]
  have hinv := tft_loop_invariant g.numRounds 0 g.resetStart rng h0
  obtain ⟨⟨_, _, _, _, hsc1, _, _, hsc2, hall⟩, hpm⟩ := hinv
  rw [hpm] at hsc1 hsc2
  rw [play_fixed_eq g rng hcp]
  refine ⟨fun r hr => hall r hr, ?_, ?_⟩
  · show (Game.playFixedLoop g.numRounds g.resetStart rng).1.strategy1.score = _
    rw [hsc1, Nat.zero_add]
    rfl
  · show (Game.playFixedLoop g.numRounds g.resetStart rng).1.strategy2.score = _
    rw [hsc2, Nat.zero_add]
    rfl

/-- Witness for C8 at two rounds with the default payoff matrix. -/
theorem tft_vs_tft_all_cooperate_witness :
    (∀ r ∈ (Game.play ⟨⟨"Tit-for-Tat (TFT)", StratKind.tft, [], [], 0⟩,
        ⟨"Tit-for-Tat (TFT)", StratKind.tft, [], [], 0⟩, {}, 2, none, []⟩ ⟨42⟩).1.roundHistory,
      r.move1 = Action.C ∧ r.move2 = Action.C) ∧
    (Game.play ⟨⟨"Tit-for-Tat (TFT)", StratKind.tft, [], [], 0⟩,
        ⟨"Tit-for-Tat (TFT)", StratKind.tft, [], [], 0⟩, {}, 2, none, []⟩ ⟨42⟩).1.finalScore1 =
      2 * PayoffMatrix.R {} ∧
    (Game.play ⟨⟨"Tit-for-Tat (TFT)", StratKind.tft, [], [], 0⟩,
        ⟨"Tit-for-Tat (TFT)", StratKind.tft, [], [], 0⟩, {}, 2, none, []⟩ ⟨42⟩).1.finalScore2 =
      2 * PayoffMatrix.R {} :=
  tft_vs_tft_all_cooperate _ ⟨42⟩ rfl rfl rfl (by decide)

/-! ### Indefinite-horizon mode -/

/-- Number of consecutive successful continuation draws, capped by
the available fuel.  This counting function follows the wording of
the specification (draw one value after each round; continue exactly
when it is strictly below the continuation probability) and is
compared against the loop of the source. -/
def specContinueCount (p : ℚ) (rng : SeededRandom) : ℕ → ℕ
  | 0 => 0
  | fuel + 1 =>
      if rng.random.1 < p then specContinueCount p rng.random.2 fuel + 1 else 0

lemma indefLoop_zero_eq (p : ℚ) (g : Game) (rng : SeededRandom) :
    Game.indefLoop p 0 g rng = (g, rng.random.2) := rfl

lemma indefLoop_succ_eq (p : ℚ) (m : ℕ) (g : Game) (rng : SeededRandom) :
    Game.indefLoop p (m + 1) g rng =
      if rng.random.1 < p then
        Game.indefLoop p m (g.playRound rng.random.2).1 (g.playRound rng.random.2).2
      else (g, rng.random.2) := rfl

lemma skip_succ (rng : SeededRandom) (n : ℕ) :
    rng.skip (n + 1) = (rng.random.2).skip n := rfl

lemma indefLoop_len_bounds (p : ℚ) : ∀ (fuel : ℕ) (g : Game) (rng : SeededRandom),
    g.roundHistory.length ≤ (Game.indefLoop p fuel g rng).1.roundHistory.length ∧
    (Game.indefLoop p fuel g rng).1.roundHistory.length ≤ g.roundHistory.length + fuel := by
  intro fuel
  induction fuel with
  | zero =>
      intro g rng
      rw [indefLoop_zero_eq]
      simp
  | succ m ih =>
      intro g rng
      rw [indefLoop_succ_eq]
      by_cases hv : rng.random.1 < p
      · rw [if_pos hv]
        have hlen := (playRound_preserve g rng.random.2).2.2.2.2.2.1
        have hb := ih (g.playRound rng.random.2).1 (g.playRound rng.random.2).2
        omega
      · rw [if_neg hv]
        simp

lemma indefLoop_drawFree (p : ℚ) : ∀ (fuel : ℕ) (g : Game) (rng : SeededRandom),
    g.strategy1.kind.usesRandom = false → g.strategy2.kind.usesRandom = false →
    (Game.indefLoop p fuel g rng).1.roundHistory.length =
      g.roundHistory.length + specContinueCount p rng fuel ∧
    (Game.indefLoop p fuel g rng).2 = rng.skip (specContinueCount p rng fuel + 1) := by
  intro fuel
  induction fuel with
  | zero =>
      intro g rng h1 h2
      rw [indefLoop_zero_eq]
      exact ⟨rfl, rfl⟩
  | succ m ih =>
      intro g rng h1 h2
      rw [indefLoop_succ_eq]
      by_cases hv : rng.random.1 < p
      · rw [if_pos hv]
        have hpre := playRound_preserve g rng.random.2
        have hrng3 : (g.playRound rng.random.2).2 = rng.random.2 :=
          playRound_rng_drawFree g rng.random.2 h1 h2
        have hrec := ih (g.playRound rng.random.2).1 rng.random.2
          (by rw [hpre.2.2.2.2.2.2.1]; exact h1)
          (by rw [hpre.2.2.2.2.2.2.2]; exact h2)
        have hcnt : specContinueCount p rng (m + 1) =
            specContinueCount p rng.random.2 m + 1 := by
          simp [specContinueCount, if_pos hv]
        rw [hrng3]
        constructor
        · rw [hrec.1, hpre.2.2.2.2.2.1, hcnt]
          omega
        · rw [hrec.2, hcnt, ← skip_succ]
      · rw [if_neg hv]
        have hcnt : specContinueCount p rng (m + 1) = 0 := by
          simp [specContinueCount, if_neg hv]
        rw [hcnt]
        exact ⟨rfl, rfl⟩

lemma specContinueCount_one (rng : SeededRandom) :
    ∀ fuel : ℕ, specContinueCount 1 rng fuel = fuel := by
  intro fuel
  induction fuel generalizing rng with
  | zero => rfl
  | succ m ih =>
      have hv : rng.random.1 < 1 := (random_fst_bounds rng).2
      simp [specContinueCount, if_pos hv, ih]

lemma reset_usesRandom (s : Strategy) : s.reset.kind.usesRandom = s.kind.usesRandom := by
  rcases hk : s.kind with _ | _ | _ | b | f <;>
    simp [Strategy.reset, hk, StratKind.usesRandom]

/-- Claim C3: in probabilistic-continuation mode the engine always
plays at least one round and never more than the 10000-round safety
ceiling, for every continuation probability and any strategies; for
strategies that draw no randomness of their own, the round count is
exactly one plus the number of consecutive continuation draws
strictly below the probability (one draw consumed after every round,
including the final one), and the generator advances by exactly one
draw per played round; and at continuation probability 1 the match
stops at exactly the 10000-round ceiling while still returning an
ordinary MatchResult. -/
theorem indefinite_mode_spec :
    (∀ (g : Game) (p : ℚ) (rng : SeededRandom), g.continuationProb = some p →
      1 ≤ (g.play rng).1.roundHistory.length ∧
      (g.play rng).1.roundHistory.length ≤ 10000) ∧
    (∀ (g : Game) (p : ℚ) (rng : SeededRandom), g.continuationProb = some p →
      g.strategy1.kind.usesRandom = false → g.strategy2.kind.usesRandom = false →
      (g.play rng).1.roundHistory.length = 1 + specContinueCount p rng 9999 ∧
      (g.play rng).2 = rng.skip ((g.play rng).1.roundHistory.length)) ∧
    (∀ (g : Game) (rng : SeededRandom), g.continuationProb = some 1 →
      g.strategy1.kind.usesRandom = false → g.strategy2.kind.usesRandom = false →
      (g.play rng).1.roundHistory.length = 10000) := by
  have hmain : ∀ (g : Game) (p : ℚ) (rng : SeededRandom), g.continuationProb = some p →
      g.strategy1.kind.usesRandom = false → g.strategy2.kind.usesRandom = false →
      (g.play rng).1.roundHistory.length = 1 + specContinueCount p rng 9999 ∧
      (g.play rng).2 = rng.skip ((g.play rng).1.roundHistory.length) := by
    intro g p rng hcp h1 h2
    have hr1 : g.resetStart.strategy1.kind.usesRandom = false := by
      have := reset_usesRandom g.strategy1
      rw [show g.resetStart.strategy1 = g.strategy1.reset from rfl, this]
      exact h1
    have hr2 : g.resetStart.strategy2.kind.usesRandom = false := by
      have := reset_usesRandom g.strategy2
      rw [show g.resetStart.strategy2 = g.strategy2.reset from rfl, this]
      exact h2
    have hpre := playRound_preserve g.resetStart rng
    have hrng1 : (g.resetStart.playRound rng).2 = rng :=
      playRound_rng_drawFree g.resetStart rng hr1 hr2
    have hdf := indefLoop_drawFree p 9999 (g.resetStart.playRound rng).1 rng
      (by rw [hpre.2.2.2.2.2.2.1]; exact hr1)
      (by rw [hpre.2.2.2.2.2.2.2]; exact hr2)
    have hg1 : (g.resetStart.playRound rng).1.roundHistory.length = 1 := by
      rw [hpre.2.2.2.2.2.1]
      rfl
    rw [play_indef_fst g p rng hcp, play_indef_snd g p rng hcp,
      result_roundHistory, hrng1]
    constructor
    · rw [hdf.1, hg1]
    · rw [hdf.2, hdf.1, hg1]
      congr 1
      omega
  refine ⟨?_, hmain, ?_⟩
  · intro g p rng hcp
    rw [play_indef_fst g p rng hcp, result_roundHistory]
    have hb := indefLoop_len_bounds p 9999 (g.resetStart.playRound rng).1
      (g.resetStart.playRound rng).2
    have hg1 : (g.resetStart.playRound rng).1.roundHistory.length = 1 := by
      rw [(playRound_preserve g.resetStart rng).2.2.2.2.2.1]
      rfl
    omega
  · intro g rng hcp h1 h2
    rw [(hmain g 1 rng hcp h1 h2).1, specContinueCount_one]

/-- Witness for C3: a TFT versus TFT indefinite-horizon match at
continuation probability one half and seed 42. -/
theorem indefinite_mode_spec_witness :
    1 ≤ (Game.play ⟨⟨"Tit-for-Tat (TFT)", StratKind.tft, [], [], 0⟩,
        ⟨"Tit-for-Tat (TFT)", StratKind.tft, [], [], 0⟩, {}, 0, some (1/2), []⟩
        ⟨42⟩).1.roundHistory.length ∧
    (Game.play ⟨⟨"Tit-for-Tat (TFT)", StratKind.tft, [], [], 0⟩,
        ⟨"Tit-for-Tat (TFT)", StratKind.tft, [], [], 0⟩, {}, 0, some (1/2), []⟩
        ⟨42⟩).1.roundHistory.length ≤ 10000 :=
  indefinite_mode_spec.1 _ (1/2) ⟨42⟩ rfl

/-- Claim C10: building GTFT through the factory with no forgiveness
entry silently defaults the forgiveness probability to 0.1. -/
theorem createStrategy_gtft_default_forgiveness :
    StrategyFactory.createStrategy "GTFT" { forgiveness := none } =
      .ok { name := "Generous TFT", kind := StratKind.gtft 0.1 } := rfl

/-! ### Round-robin tournament -/

lemma playFixedLoop_names : ∀ (n : ℕ) (g : Game) (rng : SeededRandom),
    (Game.playFixedLoop n g rng).1.strategy1.name = g.strategy1.name ∧
    (Game.playFixedLoop n g rng).1.strategy2.name = g.strategy2.name := by
  intro n
  induction n with
  | zero => intro g rng; exact ⟨rfl, rfl⟩
  | succ m ih =>
      intro g rng
      have hrec := ih (g.playRound rng).1 (g.playRound rng).2
      have hpre := playRound_preserve g rng
      exact ⟨hpre.1 ▸ hrec.1, hpre.2.1 ▸ hrec.2⟩

lemma indefLoop_names (p : ℚ) : ∀ (fuel : ℕ) (g : Game) (rng : SeededRandom),
    (Game.indefLoop p fuel g rng).1.strategy1.name = g.strategy1.name ∧
    (Game.indefLoop p fuel g rng).1.strategy2.name = g.strategy2.name := by
  intro fuel
  induction fuel with
  | zero => intro g rng; rw [indefLoop_zero_eq]; exact ⟨rfl, rfl⟩
  | succ m ih =>
      intro g rng
      rw [indefLoop_succ_eq]
      by_cases hv : rng.random.1 < p
      · rw [if_pos hv]
        have hrec := ih (g.playRound rng.random.2).1 (g.playRound rng.random.2).2
        have hpre := playRound_preserve g rng.random.2
        exact ⟨hpre.1 ▸ hrec.1, hpre.2.1 ▸ hrec.2⟩
      · rw [if_neg hv]
        exact ⟨rfl, rfl⟩

/-- The match result always carries the display names of the two
strategies the game was built from. -/
lemma play_names (g : Game) (rng : SeededRandom) :
    (g.play rng).1.strategy1Name = g.strategy1.name ∧
    (g.play rng).1.strategy2Name = g.strategy2.name := by
  have hfin : (g.playFinal rng).1.strategy1.name = g.strategy1.name ∧
      (g.playFinal rng).1.strategy2.name = g.strategy2.name := by
    rcases hcp : g.continuationProb with _ | p
    · rw [playFinal_fixed g rng hcp]
      have h := playFixedLoop_names g.numRounds g.resetStart rng
      exact ⟨h.1, h.2⟩
    · rw [playFinal_indef g p rng hcp]
      have h := indefLoop_names p 9999 (g.resetStart.playRound rng).1
        (g.resetStart.playRound rng).2
      have hpre := playRound_preserve g.resetStart rng
      exact ⟨hpre.1 ▸ h.1, hpre.2.1 ▸ h.2⟩
  constructor
  · show (g.playFinal rng).1.result.strategy1Name = _
    rw [result_strategy1Name]
    exact hfin.1
  · show (g.playFinal rng).1.result.strategy2Name = _
    rw [result_strategy2Name]
    exact hfin.2

/-- Lookup of one aggregate entry by display name, as the JS object
access aggregated[name] does. -/
def lookupAgg (m : List (String × AggregatedStats)) (name : String) :
    Option AggregatedStats :=
  (m.find? (fun p => p.1 == name)).map (fun p => p.2)

lemma lookupAgg_nil (name : String) : lookupAgg [] name = none := rfl

lemma lookupAgg_cons (p : String × AggregatedStats) (m : List (String × AggregatedStats))
    (name : String) :
    lookupAgg (p :: m) name = if p.1 = name then some p.2 else lookupAgg m name := by
  by_cases h : p.1 = name
  · simp [lookupAgg, List.find?, h]
  · have hb : (p.1 == name) = false := beq_eq_false_iff_ne.mpr h
    simp [lookupAgg, List.find?, hb, h]

lemma lookupAgg_updAgg (m : List (String × AggregatedStats)) (n name : String)
    (f : AggregatedStats → AggregatedStats) :
    lookupAgg (Tournament.updAgg m n f) name =
      if name = n then (lookupAgg m name).map f else lookupAgg m name := by
  induction m with
  | nil =>
      simp only [Tournament.updAgg, List.map_nil, lookupAgg_nil, Option.map_none]
      split <;> rfl
  | cons p rest ih =>
      simp only [Tournament.updAgg, List.map_cons] at ih ⊢
      by_cases hpn : p.1 = n
      · by_cases hpname : p.1 = name
        · rw [if_pos hpn]
          rw [lookupAgg_cons, lookupAgg_cons, if_pos hpname, if_pos hpname,
            if_pos (hpname ▸ hpn ▸ rfl : name = n)]
          rfl
        · rw [if_pos hpn]
          rw [lookupAgg_cons, lookupAgg_cons, if_neg hpname, if_neg hpname, ih]
      · by_cases hpname : p.1 = name
        · rw [if_neg hpn]
          have hnn : ¬(name = n) := fun h => hpn (hpname.trans h)
          rw [lookupAgg_cons, lookupAgg_cons, if_pos hpname, if_pos hpname,
            if_neg hnn]
        · rw [if_neg hpn]
          rw [lookupAgg_cons, lookupAgg_cons, if_neg hpname, if_neg hpname, ih]

/-- Lookup commutes with the final averaging map of runRoundRobin. -/
lemma lookupAgg_map (m : List (String × AggregatedStats)) (name : String)
    (f : AggregatedStats → AggregatedStats) :
    lookupAgg (m.map (fun p => (p.1, f p.2))) name = (lookupAgg m name).map f := by
  induction m with
  | nil => rfl
  | cons p rest ih =>
      rw [List.map_cons, lookupAgg_cons, lookupAgg_cons]
      by_cases h : p.1 = name
      · rw [if_pos h, if_pos h]
        rfl
      · rw [if_neg h, if_neg h, ih]

/-- Sum of the final scores of one named strategy over a list of
match results, counting both roles.  This follows the wording of the
claim (sum of its final scores across every match it participated in)
and is compared against the aggregation of the source. -/
def specSumScores (name : String) : List MatchResult → ℚ
  | [] => 0
  | r :: rest =>
      (if r.strategy1Name = name then r.finalScore1 else 0) +
      (if r.strategy2Name = name then r.finalScore2 else 0) +
      specSumScores name rest

/-- Number of matches in a list in which the named strategy appears,
counting both roles. -/
def specGamesCount (name : String) : List MatchResult → ℕ
  | [] => 0
  | r :: rest =>
      (if r.strategy1Name = name then 1 else 0) +
      (if r.strategy2Name = name then 1 else 0) +
      specGamesCount name rest

lemma lookupAgg_aggStep (m : List (String × AggregatedStats)) (res : MatchResult)
    (name : String) (a : AggregatedStats) (h : lookupAgg m name = some a) :
    ∃ b, lookupAgg (Tournament.aggStep m res) name = some b ∧
      b.gamesPlayed = a.gamesPlayed +
        ((if res.strategy1Name = name then 1 else 0) +
         (if res.strategy2Name = name then 1 else 0)) ∧
      b.totalScore = a.totalScore +
        ((if res.strategy1Name = name then res.finalScore1 else 0) +
         (if res.strategy2Name = name then res.finalScore2 else 0)) := by
  unfold Tournament.aggStep
  rw [lookupAgg_updAgg, lookupAgg_updAgg, h]
  by_cases h1 : res.strategy1Name = name <;> by_cases h2 : res.strategy2Name = name
  · rw [if_pos (h2.symm), if_pos (h1.symm)]
    exact ⟨_, rfl, by simp [h1, h2], by simp [h1, h2]; ring⟩
  · rw [if_neg (fun hx => h2 hx.symm), if_pos (h1.symm)]
    exact ⟨_, rfl, by simp [h1, h2], by simp [h1, h2]⟩
  · rw [if_pos (h2.symm), if_neg (fun hx => h1 hx.symm)]
    exact ⟨_, rfl, by simp [h1, h2], by simp [h1, h2]⟩
  · rw [if_neg (fun hx => h2 hx.symm), if_neg (fun hx => h1 hx.symm)]
    exact ⟨_, rfl, by simp [h1, h2], by simp [h1, h2]⟩

lemma lookupAgg_foldl (rs : List MatchResult) :
    ∀ (m : List (String × AggregatedStats)) (name : String) (a : AggregatedStats),
    lookupAgg m name = some a →
    ∃ b, lookupAgg (rs.foldl Tournament.aggStep m) name = some b ∧
      b.gamesPlayed = a.gamesPlayed + specGamesCount name rs ∧
      b.totalScore = a.totalScore + specSumScores name rs := by
  induction rs with
  | nil =>
      intro m name a h
      exact ⟨a, h, rfl, by simp [specSumScores]⟩
  | cons r rest ih =>
      intro m name a h
      obtain ⟨b1, hb1, hg1, ht1⟩ := lookupAgg_aggStep m r name a h
      obtain ⟨b, hb, hg, ht⟩ := ih (Tournament.aggStep m r) name b1 hb1
      refine ⟨b, by simpa using hb, ?_, ?_⟩
      · rw [hg, hg1]
        simp only [specGamesCount]
        omega
      · rw [ht, ht1]
        simp only [specSumScores]
        ring

/-- The two recorded display names of every match result in a list. -/
def resultNamePairs (rs : List MatchResult) : List (String × String) :=
  rs.map fun m => (m.strategy1Name, m.strategy2Name)

/-- Participation count of a name over a list of name pairs. -/
def countPairs (name : String) : List (String × String) → ℕ
  | [] => 0
  | pr :: rest =>
      (if pr.1 = name then 1 else 0) + (if pr.2 = name then 1 else 0) +
      countPairs name rest

lemma specGamesCount_eq (name : String) : ∀ (rs : List MatchResult),
    specGamesCount name rs = countPairs name (resultNamePairs rs) := by
  intro rs
  induction rs with
  | nil => rfl
  | cons r rest ih =>
      simp only [specGamesCount, resultNamePairs, List.map_cons, countPairs]
      rw [show countPairs name (List.map (fun m => (m.strategy1Name, m.strategy2Name)) rest) =
        countPairs name (resultNamePairs rest) from rfl, ← ih]

/-- Display name of each valid strategy code. -/
def codeDisplayName : String → String
  | "ALLC" => "Always Cooperate (ALL-C)"
  | "ALLD" => "Always Defect (ALL-D)"
  | "TFT" => "Tit-for-Tat (TFT)"
  | "GRIM" => "Grim Trigger"
  | "GTFT" => "Generous TFT"
  | _ => ""

lemma createStrategy_valid (code : String) (params : Params)
    (h : code ∈ StrategyFactory.getAllStrategyCodes) :
    ∃ s, StrategyFactory.createStrategy code params = .ok s ∧
      s.name = codeDisplayName code := by
  simp only [StrategyFactory.getAllStrategyCodes, List.mem_cons,
    List.mem_singleton, List.not_mem_nil, or_false] at h
  rcases h with h | h | h | h | h <;> subst h
  · exact ⟨_, rfl, rfl⟩
  · exact ⟨_, rfl, rfl⟩
  · exact ⟨_, rfl, rfl⟩
  · exact ⟨_, rfl, rfl⟩
  · exact ⟨_, rfl, rfl⟩

lemma playPairGame_eq (t : Tournament) (c1 c2 : String) (rng : SeededRandom)
    (s1 s2 : Strategy)
    (h1 : StrategyFactory.createStrategy c1 t.strategyParams = .ok s1)
    (h2 : StrategyFactory.createStrategy c2 t.strategyParams = .ok s2) :
    t.playPairGame c1 c2 rng =
      .ok (Game.play ⟨s1, s2, t.payoffMatrix, t.numRounds, t.continuationProb, []⟩ rng) := by
  unfold Tournament.playPairGame
  rw [h1, h2]

lemma pairLoop_ok (t : Tournament) :
    ∀ (pairs : List (String × String)) (pm : ScoreMap) (rng : SeededRandom),
    (∀ pr ∈ pairs, pr.1 ∈ StrategyFactory.getAllStrategyCodes ∧
        pr.2 ∈ StrategyFactory.getAllStrategyCodes) →
    ∃ rs pm2 rng2, t.pairLoop pairs pm rng = .ok (rs, pm2, rng2) ∧
      resultNamePairs rs =
        pairs.map fun pr => (codeDisplayName pr.1, codeDisplayName pr.2) := by
  intro pairs
  induction pairs with
  | nil => intro pm rng _; exact ⟨[], pm, rng, rfl, rfl⟩
  | cons pr rest ih =>
      intro pm rng h
      obtain ⟨hc1, hc2⟩ := h pr (List.mem_cons_self pr rest)
      obtain ⟨s1, hs1, hn1⟩ := createStrategy_valid pr.1 t.strategyParams hc1
      obtain ⟨s2, hs2, hn2⟩ := createStrategy_valid pr.2 t.strategyParams hc2
      have hplay := playPairGame_eq t pr.1 pr.2 rng s1 s2 hs1 hs2
      set gm : Game := ⟨s1, s2, t.payoffMatrix, t.numRounds, t.continuationProb, []⟩ with hgm
      obtain ⟨rs, pm3, rng3, hrest, hnames⟩ :=
        ih (((pm.set (gm.play rng).1.strategy1Name (gm.play rng).1.strategy2Name
              (gm.play rng).1.finalScore1)).set (gm.play rng).1.strategy2Name
              (gm.play rng).1.strategy1Name (gm.play rng).1.finalScore2)
          (gm.play rng).2 (fun q hq => h q (List.mem_cons_of_mem pr hq))
      refine ⟨(gm.play rng).1 :: rs, pm3, rng3, ?_, ?_⟩
      · show Tournament.pairLoop t (pr :: rest) pm rng = _
        simp only [Tournament.pairLoop, hplay, hrest]
      · simp only [resultNamePairs, List.map_cons] at hnames ⊢
        rw [hnames]
        have hpn := play_names gm rng
        rw [hpn.1, hpn.2, hgm]
        rw [show (⟨s1, s2, t.payoffMatrix, t.numRounds, t.continuationProb, []⟩ :
          Game).strategy1.name = s1.name from rfl]
        rw [show (⟨s1, s2, t.payoffMatrix, t.numRounds, t.continuationProb, []⟩ :
          Game).strategy2.name = s2.name from rfl]
        rw [hn1, hn2]

lemma selfLoop_ok (t : Tournament) :
    ∀ (codes : List String) (pm : ScoreMap) (rng : SeededRandom),
    (∀ c ∈ codes, c ∈ StrategyFactory.getAllStrategyCodes) →
    ∃ pm2 rng2, t.selfLoop codes pm rng = .ok (pm2, rng2) := by
  intro codes
  induction codes with
  | nil => intro pm rng _; exact ⟨pm, rng, rfl⟩
  | cons c rest ih =>
      intro pm rng h
      obtain ⟨s, hs, _⟩ := createStrategy_valid c t.strategyParams
        (h c (List.mem_cons_self c rest))
      have hplay := playPairGame_eq t c c rng s s hs hs
      set gm : Game := ⟨s, s, t.payoffMatrix, t.numRounds, t.continuationProb, []⟩ with hgm
      obtain ⟨pm2, rng2, hrest⟩ :=
        ih (pm.set (gm.play rng).1.strategy1Name (gm.play rng).1.strategy1Name
            (gm.play rng).1.finalScore1) (gm.play rng).2
          (fun q hq => h q (List.mem_cons_of_mem c hq))
      refine ⟨pm2, rng2, ?_⟩
      show Tournament.selfLoop t (c :: rest) pm rng = _
      simp only [Tournament.selfLoop, hplay, hrest]

/-- The five display names in strategy-code order. -/
def allDisplayNames : List String :=
  ["Always Cooperate (ALL-C)", "Always Defect (ALL-D)", "Tit-for-Tat (TFT)",
   "Grim Trigger", "Generous TFT"]

/-- The zero-initialized aggregate map over the five display names. -/
def aggInit : List (String × AggregatedStats) :=
  allDisplayNames.map fun n => (n, ⟨0, 0, 0, 0, 0⟩)

/-- The averaging update applied to every aggregate entry at the end
of runRoundRobin. -/
def avgStats (a : AggregatedStats) : AggregatedStats :=
  { a with averageScore := a.totalScore / (a.gamesPlayed : ℚ),
           cooperationRate := a.cooperationCount / (a.gamesPlayed : ℚ) }

lemma namesOf_codes (params : Params) :
    Tournament.namesOf params StrategyFactory.getAllStrategyCodes =
      .ok allDisplayNames := rfl

lemma initAgg_codes (params : Params) :
    Tournament.initAgg params StrategyFactory.getAllStrategyCodes = .ok aggInit := rfl

/-- Claim C1 (amended): the round-robin over the fixed 5-strategy set
returns successfully for every tournament configuration and seed; the
matchResults list contains exactly the 10 distinct-pair matches (the
5 self-play matches are played and recorded only on the diagonal of
the score mapping, never pushed onto matchResults); every aggregate
entry has gamesPlayed 4; and each totalScore equals the sum of the
final scores of that strategy over the 10 listed matches, so the
self-play score is excluded. -/
theorem runRoundRobin_spec (t : Tournament) (rng : SeededRandom) :
    ∃ r rng2, t.runRoundRobin rng = .ok (r, rng2) ∧
      r.strategyNames = allDisplayNames ∧
      r.matchResults.length = 10 ∧
      ∀ name ∈ allDisplayNames, ∃ stats, lookupAgg r.aggregated name = some stats ∧
        stats.gamesPlayed = 4 ∧
        stats.totalScore = specSumScores name r.matchResults := by
  obtain ⟨rs, pm2, rng2, hpair, hnames⟩ := pairLoop_ok t
    (distinctPairs StrategyFactory.getAllStrategyCodes) (fun _ _ => none) rng
    (by decide)
  obtain ⟨pm3, rng3, hself⟩ := selfLoop_ok t StrategyFactory.getAllStrategyCodes
    pm2 rng2 (fun c hc => hc)
  have hrun : t.runRoundRobin rng =
      .ok ({ matchResults := rs,
             aggregated := (rs.foldl Tournament.aggStep aggInit).map
               (fun p => (p.1, avgStats p.2)),
             scoreMap := pm3, strategyNames := allDisplayNames }, rng3) := by
    show Tournament.runRoundRobin t rng = _
    simp only [Tournament.runRoundRobin, namesOf_codes, hpair, hself, initAgg_codes]
    rfl
  have hlen10 : rs.length = 10 := by
    have h := congrArg List.length hnames
    simp only [resultNamePairs, List.length_map] at h
    rw [h]
    rfl
  refine ⟨_, rng3, hrun, rfl, hlen10, ?_⟩
  intro name hmem
  have hcount : countPairs name (resultNamePairs rs) = 4 := by
    rw [hnames]
    simp only [allDisplayNames, List.mem_cons, List.mem_singleton,
      List.not_mem_nil, or_false] at hmem
    rcases hmem with h | h | h | h | h <;> subst h <;> decide
  have h0 : lookupAgg aggInit name = some ⟨0, 0, 0, 0, 0⟩ := by
    simp only [allDisplayNames, List.mem_cons, List.mem_singleton,
      List.not_mem_nil, or_false] at hmem
    rcases hmem with h | h | h | h | h <;> subst h <;> rfl
  obtain ⟨b, hb, hg, ht⟩ := lookupAgg_foldl rs aggInit name ⟨0, 0, 0, 0, 0⟩ h0
  refine ⟨avgStats b, ?_, ?_, ?_⟩
  · show lookupAgg ((rs.foldl Tournament.aggStep aggInit).map
      (fun p => (p.1, avgStats p.2))) name = some (avgStats b)
    rw [lookupAgg_map (rs.foldl Tournament.aggStep aggInit) name avgStats, hb]
    rfl
  · show b.gamesPlayed = 4
    rw [hg, specGamesCount_eq, hcount]
  · show b.totalScore = specSumScores name rs
    rw [ht]
    simp

/-- Witness for the amended C1 at the default payoff matrix, one
round, default parameters and seed 42. -/
theorem runRoundRobin_spec_witness :
    ∃ r rng2, Tournament.runRoundRobin ⟨{}, 1, {}, none⟩ ⟨42⟩ = .ok (r, rng2) ∧
      r.strategyNames = allDisplayNames ∧
      r.matchResults.length = 10 ∧
      ∀ name ∈ allDisplayNames, ∃ stats, lookupAgg r.aggregated name = some stats ∧
        stats.gamesPlayed = 4 ∧
        stats.totalScore = specSumScores name r.matchResults :=
  runRoundRobin_spec ⟨{}, 1, {}, none⟩ ⟨42⟩

/-- Concrete observation of one full round-robin run: length of the
matchResults list, gamesPlayed per aggregate entry, and whether the
TFT self-play diagonal of the score mapping was written. -/
def rrProbe : Option (ℕ × List (String × ℕ) × Bool) :=
  match Tournament.runRoundRobin ⟨{}, 1, {}, none⟩ ⟨42⟩ with
  | .ok x => some (x.1.matchResults.length,
      x.1.aggregated.map (fun p => (p.1, p.2.gamesPlayed)),
      (x.1.scoreMap "Tit-for-Tat (TFT)" "Tit-for-Tat (TFT)").isSome)
  | .error _ => none

/-- Counterexample to claim C1 as stated: at the default payoff
matrix, one round per match, default parameters and seed 42, the
returned matchResults list has 10 entries, not 15, and every
gamesPlayed aggregate is 4, not 5 — even though the self-play
matches were played, as the written TFT diagonal cell of the score
mapping shows.  The companion theorem for the amended claim
establishes that each totalScore sums only over the 10 listed
matches, so the self-play score is also excluded from totalScore. -/
theorem runRoundRobin_selfplay_cex :
    rrProbe = some (10,
      [("Always Cooperate (ALL-C)", 4), ("Always Defect (ALL-D)", 4),
       ("Tit-for-Tat (TFT)", 4), ("Grim Trigger", 4), ("Generous TFT", 4)],
      true) ∧
    (10 : ℕ) ≠ 15 ∧ (4 : ℕ) ≠ 5 := by
  refine ⟨rfl, by decide, by decide⟩

end PD
